import Mathlib

set_option maxHeartbeats 1600000

/-!
Shallow embedding of `art/estimators/speech_recognition/pytorch_espresso.py`
(class `PyTorchEspresso`), the ART adapter around the Espresso end-to-end
speech recognizer, together with proofs about its batch collation, order
restoration, prediction, gradient, and constructor-validation logic.

Modelling conventions:
* raw audio is a list of rationals (float32 values are modelled as exact
  rationals; the `astype(ART_NUMPY_DTYPE)` cast is the identity here);
* torch tensors become plain lists; `torch.zeros(b, m, 1)` followed by row
  slice assignment becomes explicit right padding with `0`;
* third-party callables that the adapter merely forwards to (the fairseq
  dictionary `encode_line`, symbol table, `collate_tokens`, the SentencePiece
  `EncodeAsPieces`, the BPE decoder, and the beam-search `inference_step`) are
  abstract data of the embedding, universally quantified in the theorems;
* Python exceptions become `Option`/`Except` results;
* `_apply_preprocessing` / `_apply_preprocessing_gradient` with no defences
  set are modelled as the identity.
-/

namespace ArtEspresso

/-- Audio sample: one variable-length waveform, one rational per frame. -/
abbrev Sample := List ℚ

/-- Module-level constant `INT16MAX = 32767` (line 47 of the source). -/
def INT16MAX : ℚ := 32767

/-- One item of the internal `batch` list built by `_transform_model_input`:
the scaled waveform tensor paired with the optional encoded target, that is
the tuple `(x_i, target)` appended at line 410. -/
abbrev BatchItem := Sample × Option (List Nat)

/-- Python `sorted(l, key=key, reverse=True)` as used at lines 332 and 413:
a stable sort by descending key.  Insertion sort with the relation
`fun a b => key b ≤ key a` has exactly those semantics: the output is in
descending key order and elements with equal keys keep their original
relative order (proved below as `pairwise_pySortDescBy`). -/
def pySortDescBy (key : α → Nat) (l : List α) : List α :=
  l.insertionSort (fun a b => key b ≤ key a)

/-- Sort key used by `_collate_fn` (line 332): the sequence length of the
waveform component, `t[0].size(0)`. -/
def itemLen (t : BatchItem) : Nat := t.1.length

/-- Fairseq target dictionary (`self.dictionary = self.task.target_dictionary`).
The fields model the external fairseq `Dictionary` object as used by the
source: `padIdx` is `dictionary.pad()`, `eosIdx` is `dictionary.eos()`,
`encode_line` maps a space-joined piece string to a token-id tensor, and
`sym` is the id-to-symbol table underlying `dictionary.string`. -/
structure TaskDict where
  padIdx : Nat
  eosIdx : Nat
  encode_line : String → List Nat
  sym : Nat → String

/-- SentencePiece processor (`self.spp`), an external library object; the
source only calls its `EncodeAsPieces` method (line 393). -/
structure SentencePieceProc where
  EncodeAsPieces : String → List String

/-- Model of `fairseq.data.data_utils.collate_tokens` (external library).
Arguments: token lists, `pad_idx`, `eos_idx`, `left_pad`,
`move_eos_to_beginning`.  The claims do not constrain its output, so it is
kept abstract. -/
abbrev CollateTokens := List (List Nat) → Nat → Nat → Bool → Bool → List (List Nat)

/-- The `net_input` sub-dictionary assembled at lines 376-380.  `src_tokens`
is the `(batch, max_seqlength, 1)` float tensor `src_frames`, modelled as a
list of rows, each row a list of one-element frames (the trailing dimension
produced by `sample.unsqueeze(1)`). -/
structure NetInput where
  src_tokens : List (List (List ℚ))
  src_lengths : List Nat
  prev_output_tokens : Option (List (List Nat))
deriving DecidableEq

/-- The batch dictionary returned by `_collate_fn` (lines 374-382). -/
structure BatchDict where
  ntokens : Option Nat
  net_input : NetInput
  target : Option (List (List Nat))
deriving DecidableEq

/-- Row construction of lines 335-340: `torch.zeros(batch_size, max_seqlength, 1)`
followed by `src_frames[i, :seq_length, :] = sample.unsqueeze(1)` leaves row
`i` holding the sample in its first `seq_length` frames and zeros afterwards;
every frame is a one-element cell coming from `unsqueeze(1)`. -/
def padFrames (s : Sample) (m : Nat) : List (List ℚ) :=
  (s ++ List.replicate (m - s.length) 0).map (fun v => [v])

/-- `_collate_fn` (lines 326-384).  Sorts the batch by descending sequence
length (line 332), pads the waveforms into `src_frames` and records
`src_lengths` (lines 334-341), and, when targets are present, builds
`target`, `prev_output_tokens` and `ntokens` (lines 343-372).  An empty
batch raises `IndexError` at `batch[0]` in Python, modelled as `none`.
In the source targets are present for all items or for none (they are built
uniformly from `y`), so reading a target with default `[]` is only a
totalization device. -/
def collate_fn (D : TaskDict) (ct : CollateTokens) (batch : List BatchItem) :
    Option BatchDict :=
  match pySortDescBy itemLen batch with
  | [] => none
  | b0 :: rest =>
    let sorted := b0 :: rest
    let max_seqlength := b0.1.length
    let src_frames := sorted.map (fun s => padFrames s.1 max_seqlength)
    let src_lengths := sorted.map (fun s => s.1.length)
    match b0.2 with
    | some _ =>
      let tgts := sorted.map (fun s => s.2.getD [])
      some
        { ntokens := some ((tgts.map (fun t => t.countP (fun tok => tok != D.padIdx))).sum)
          net_input :=
            { src_tokens := src_frames
              src_lengths := src_lengths
              prev_output_tokens := some (ct tgts D.padIdx D.eosIdx false true) }
          target := some (ct tgts D.padIdx D.eosIdx false false) }
    | none =>
      some
        { ntokens := none
          net_input :=
            { src_tokens := src_frames
              src_lengths := src_lengths
              prev_output_tokens := none }
          target := none }

/-- Target encoding of lines 393-395: `spp.EncodeAsPieces(y[i])`, the pieces
joined by spaces, then `dictionary.encode_line(sp_string, add_if_not_exist=False)`. -/
def encodeTarget (D : TaskDict) (spp : SentencePieceProc) (s : String) : List Nat :=
  D.encode_line (String.intercalate " " (spp.EncodeAsPieces s))

/-- Elementwise rescaling of line 407: `x_i = x_i * 32767`. -/
def scaleSample (s : Sample) : Sample := s.map (fun v => v * 32767)

/-- The `batch` list built by the loop of lines 387-410: for each index `i`,
the pair of the rescaled sample and the optional encoded target `y[i]`.
Reading `y` with default `""` models the Python indexing `y[i]`, which the
source only reaches with `y` at least as long as `x`. -/
def buildBatch (D : TaskDict) (spp : SentencePieceProc) (x : List Sample)
    (y : Option (List String)) : List BatchItem :=
  (List.range x.length).map fun i =>
    (scaleSample (x.getD i []), y.map fun ys => encodeTarget D spp (ys.getD i ""))

/-- Line 413: `batch_idx = sorted(range(len(batch)), key=lambda i: batch[i][0].size(0), reverse=True)`. -/
def batchIdxOf (batch : List BatchItem) : List Nat :=
  pySortDescBy (fun i => (batch.getD i ([], none)).1.length) (List.range batch.length)

/-- `_transform_model_input` (lines 305-418): build the batch list, remember
the original order in `batch_idx`, and collate. -/
def transform_model_input (D : TaskDict) (spp : SentencePieceProc)
    (ct : CollateTokens) (x : List Sample) (y : Option (List String)) :
    Option BatchDict × List Nat :=
  let batch := buildBatch D spp x y
  (collate_fn D ct batch, batchIdxOf batch)

/-- The beam-search generator (`self.generator`), an external fairseq object;
the source reads `eos`, `pad` and, when present, the attribute
`symbols_to_strip_from_output` (lines 211-215). -/
structure Generator where
  eos : Nat
  pad : Nat
  symbols_to_strip_from_output : Option (List Nat)

/-- `get_symbols_to_strip_from_output` (lines 211-215): the attribute when the
generator has it, otherwise the pair of its end-of-sentence and padding ids. -/
def get_symbols_to_strip_from_output (g : Generator) : List Nat :=
  match g.symbols_to_strip_from_output with
  | some s => s
  | none => [g.eos, g.pad]

/-- Model of the external fairseq `Dictionary.string(tokens, bpe_symbol=None,
extra_symbols_to_ignore=...)` call of lines 242-246: drop every token that is
among the ignored symbols and join the symbols of the remaining tokens with
spaces. -/
def dict_string (sym : Nat → String) (ignore : List Nat) (tokens : List Nat) : String :=
  String.intercalate " " ((tokens.filter (fun t => !(ignore.contains t))).map sym)

/-- Sequential elementwise writes: `arr[i] = v` for the index/value pairs in
order, later writes overwriting earlier ones, as numpy fancy assignment does. -/
def setFold : List α → List Nat → List α → List α
  | arr, [], _ => arr
  | arr, _ :: _, [] => arr
  | arr, i :: is, v :: vs => setFold (arr.set i v) is vs

/-- Numpy fancy index assignment `arr[idx] = vals` (line 252).  Numpy raises
on a length mismatch between the indexing result and the value array and on
an out-of-bounds index; both are modelled as `none`. -/
def npIndexAssign (arr : List α) (idx : List Nat) (vals : List α) : Option (List α) :=
  if idx.length = vals.length ∧ ∀ i ∈ idx, i < arr.length then
    some (setFold arr idx vals)
  else none

/-- Decoding of one hypothesis (lines 242-247): `dictionary.string` with the
symbols to strip ignored, then `bpe.decode`. -/
def decodeHypo (D : TaskDict) (g : Generator) (bpe_decode : String → String)
    (tokens : List Nat) : String :=
  bpe_decode (dict_string D.sym (get_symbols_to_strip_from_output g) tokens)

/-- `predict` (lines 200-253).  `infer` models the external
`task.inference_step(generator, models, batch)`, returning for each row of
the collated batch the list of hypothesis token tensors (`hypo["tokens"]`).
The prediction loop slices `x` into batches of `batch_size`, collates each
slice, decodes the first `nbest` hypotheses of every row, and accumulates the
decoded strings.  After the loop the source reindexes the whole accumulated
output with the `batch_idx` of the LAST slice only (line 252).  Failure modes
modelled as `none`: `batch_size = 0` (ZeroDivisionError in the batch count),
an empty `x` (the name `batch_idx` is never bound, NameError at line 252),
and a shape mismatch or out-of-range index in the final fancy assignment. -/
def predict (D : TaskDict) (spp : SentencePieceProc) (ct : CollateTokens)
    (g : Generator) (bpe_decode : String → String)
    (infer : BatchDict → List (List (List Nat))) (nbest : Nat)
    (x : List Sample) (batch_size : Nat) : Option (List String) :=
  if batch_size = 0 then none
  else
    let num_batch := (x.length + batch_size - 1) / batch_size
    let step : Nat → Option (List String × List Nat) := fun m =>
      let b := m * batch_size
      let e := min ((m + 1) * batch_size) x.length
      let xb := (x.drop b).take (e - b)
      match transform_model_input D spp ct xb none with
      | (some bd, bidx) =>
        some (((infer bd).flatMap fun hypos_i =>
          (hypos_i.take nbest).map fun hypo => decodeHypo D g bpe_decode hypo), bidx)
      | (none, _) => none
    match (List.range num_batch).mapM step with
    | none => none
    | some results =>
      match results.getLast? with
      | none => none
      | some last =>
        let decoded_output := (results.map Prod.fst).flatten
        npIndexAssign decoded_output last.2 decoded_output

/-- Python exceptions raised (or reachable) in the modelled code paths. -/
inductive PyError where
  | notImplementedError : PyError
  | valueError : String → PyError
  | nameError : String → PyError
  | attributeError : String → PyError
  | indexError : PyError
deriving DecidableEq

/-- `loss_gradient` (lines 255-287).  The criterion loss is an external
differentiable function of the collated batch; `dcrit` abstracts its partial
derivative with respect to the src-tokens entry at (row, frame).
Backpropagation through the computation graph of `_transform_model_input`
(sample `i` is rescaled by `32767` and written into the first
`src_lengths[j]` frames of row `j`, where `batch_idx[j] = i`) gives leaf
`x_i` the gradient `32767 * dcrit j t` at frame `t`.

Whether the result loop of lines 280-281 can read those gradients back
depends on the kind of the samples held by `x_preprocessed`, modelled by the
`x_is_numpy` flag (the source tests each sample with `isinstance` at line
398; the estimator API always produces homogeneous batches):

* numpy arrays, the documented input type: lines 398-400 rebind the loop
  variable to a fresh torch leaf tensor, `requires_grad` is set on that
  local tensor only (line 404), and nothing is stored back into the input,
  so line 281 evaluates `x_i.grad` on a numpy array and raises
  `AttributeError`;
* torch tensors supplied by the caller: the `isinstance` test fails,
  `requires_grad` is set in place on the caller tensors, and line 281 reads
  their gradients — one entry per sample, in original order, with the shape
  of that sample.

An empty `x` makes `_collate_fn` raise `IndexError` first (line 334). -/
def loss_gradient (D : TaskDict) (spp : SentencePieceProc) (ct : CollateTokens)
    (dcrit : Nat → Nat → ℚ) (x_is_numpy : Bool) (x : List Sample)
    (y : List String) : Except PyError (List Sample) :=
  match transform_model_input D spp ct x (some y) with
  | (none, _) => Except.error PyError.indexError
  | (some bd, batch_idx) =>
    match x_is_numpy with
    | true => Except.error (PyError.attributeError "grad")
    | false =>
      Except.ok ((List.range x.length).map fun i =>
        let j := batch_idx.indexOf i
        (List.range (bd.net_input.src_lengths.getD j 0)).map fun t => 32767 * dcrit j t)

/-- Estimator attributes relevant to the mutation claims; `fit` and
`get_activations` consist of a single `raise` statement, so any state they
could touch is left untouched. -/
structure EstimatorState where
  sampling_rate : Nat
  verbose : Bool
deriving DecidableEq

/-- `fit` (lines 289-303): the body is `raise NotImplementedError`; the
estimator state is returned unchanged alongside the raised error. -/
def fit (st : EstimatorState) (x : List Sample) (y : List String)
    (batch_size : Nat) (nb_epochs : Nat) : EstimatorState × Except PyError Unit :=
  (st, Except.error PyError.notImplementedError)

/-- `get_activations` (lines 476-479): the body is `raise NotImplementedError`. -/
def get_activations (st : EstimatorState) (x : List Sample)
    (layer : Nat ⊕ String) (batch_size : Nat) (framework : Bool) :
    EstimatorState × Except PyError (List Sample) :=
  (st, Except.error PyError.notImplementedError)

/-- Clip-value validation of lines 106-110: with `clip_values` provided, the
constructor requires `np.all(clip_values[0] == -1)` and
`np.all(clip_values[1] == 1)`; scalar bounds are modelled as one-element
lists.  Returns the raised error, if any. -/
def clipValuesError (cv : Option (List ℚ × List ℚ)) : Option PyError :=
  match cv with
  | none => none
  | some (lo, hi) =>
    if !(lo.all (fun v => v == -1)) then
      some (PyError.valueError "This estimator requires normalized input audios with clip_vales=(-1, 1).")
    else if !(hi.all (fun v => v == 1)) then
      some (PyError.valueError "This estimator requires normalized input audios with clip_vales=(-1, 1).")
    else none

/-- `__init__` (lines 60-198), up to and including the download step; the
later purely external steps (yaml parse, task setup, checkpoint load) are
elided and success is `Except.ok ()`.  The first component is the list of
files downloaded via `get_file`, in order, so an error paired with `[]` means
the constructor raised before attempting any download.  Steps in source
order: clip-value checks (lines 106-110), the postprocessing-defences check
(lines 113-114), then config selection (lines 125-162): with no config
filepath, only the model name `librispeech_transformer` is recognised and its
four assets are downloaded; any other name raises `ValueError`.  With a
config filepath provided, line 165 reads the never-assigned local
`config_path`, a `NameError`. -/
def espressoInit (espresso_config_filepath : Option String) (model : Option String)
    (cv : Option (List ℚ × List ℚ)) (postprocessing_defences : Option (List String)) :
    List String × Except PyError Unit :=
  match clipValuesError cv with
  | some e => ([], Except.error e)
  | none =>
    match postprocessing_defences with
    | some _ => ([], Except.error (PyError.valueError "This estimator does not support `postprocessing_defences`."))
    | none =>
      match espresso_config_filepath with
      | none =>
        if model = some "librispeech_transformer" then
          (["libri960_transformer.yaml", "checkpoint_best.pt",
            "train_960_unigram5000.model", "train_960_unigram5000_units.txt"],
           Except.ok ())
        else ([], Except.error (PyError.valueError "Model not recognised."))
      | some _ => ([], Except.error (PyError.nameError "config_path"))

/-! ### Concrete instantiations of the external components, used to evaluate
the embedding at specific inputs -/

/-- A concrete task dictionary: pad id 0, eos id 1, a constant encoder and
the decimal symbol table. -/
def fixDict : TaskDict := ⟨0, 1, fun _ => [2], fun n => toString n⟩

/-- A concrete SentencePiece processor returning the input as a single piece. -/
def fixSpp : SentencePieceProc := ⟨fun s => [s]⟩

/-- A concrete `collate_tokens` returning its input unchanged. -/
def fixCt : CollateTokens := fun tg _ _ _ _ => tg

/-- A concrete generator with eos id 7, pad id 0 and no
`symbols_to_strip_from_output` attribute. -/
def fixGen : Generator := ⟨7, 0, none⟩

/-- A concrete inference step: one hypothesis `[3, 7]` for every row of the
collated batch. -/
def fixInfer : BatchDict → List (List (List Nat)) := fun bd =>
  bd.net_input.src_tokens.map (fun _ => [[3, 7]])

/-! ### Properties of the stable descending sort -/

/-- Inserting `a` in front of the first element of key at most `key a`
preserves the stable-descending invariant, provided `a` was originally
before every element of `l`. -/
theorem pairwise_orderedInsert_descKey (key : α → Nat) (Q : α → α → Prop) (a : α)
    (l : List α)
    (hl : l.Pairwise (fun u v => key v < key u ∨ (key u = key v ∧ Q u v)))
    (ha : ∀ b ∈ l, Q a b) :
    (l.orderedInsert (fun u v => key v ≤ key u) a).Pairwise
      (fun u v => key v < key u ∨ (key u = key v ∧ Q u v)) := by
  induction l with
  | nil => simp
  | cons b bs ih =>
    rw [List.orderedInsert]
    rcases List.pairwise_cons.mp hl with ⟨hb, hbs⟩
    by_cases h : key b ≤ key a
    · rw [if_pos h]
      refine List.pairwise_cons.mpr ⟨?_, hl⟩
      intro c hc
      have hle : key c ≤ key a := by
        rcases List.mem_cons.mp hc with rfl | hcbs
        · exact h
        · rcases hb c hcbs with h1 | h1
          · exact le_trans (le_of_lt h1) h
          · exact le_trans (le_of_eq h1.1.symm) h
      rcases Nat.lt_or_ge (key c) (key a) with hlt | hge
      · exact Or.inl hlt
      · exact Or.inr ⟨le_antisymm hge hle, ha c hc⟩
    · rw [if_neg h]
      refine List.pairwise_cons.mpr ⟨?_, ih hbs (fun c hc => ha c (List.mem_cons_of_mem b hc))⟩
      intro z hz
      rcases (List.mem_orderedInsert _).mp hz with rfl | hz
      · exact Or.inl (Nat.lt_of_not_le h)
      · exact hb z hz

/-- Stability and sortedness of `pySortDescBy`: if the input is ordered by
`Q` (for index lists, `Q = (· < ·)` is the original order), then in the
output any element is followed only by elements of strictly smaller key or of
equal key that came after it originally.  This is exactly the contract of
Python `sorted(..., reverse=True)`. -/
theorem pairwise_pySortDescBy (key : α → Nat) (Q : α → α → Prop) (l : List α)
    (hl : l.Pairwise Q) :
    (pySortDescBy key l).Pairwise
      (fun u v => key v < key u ∨ (key u = key v ∧ Q u v)) := by
  induction l with
  | nil => simp [pySortDescBy]
  | cons a as ih =>
    rcases List.pairwise_cons.mp hl with ⟨ha, has⟩
    have : pySortDescBy key (a :: as) =
        (pySortDescBy key as).orderedInsert (fun u v => key v ≤ key u) a := rfl
    rw [this]
    refine pairwise_orderedInsert_descKey key Q a _ (ih has) ?_
    intro b hb
    exact ha b ((List.mem_insertionSort _).mp hb)

/-- `pySortDescBy` permutes its input. -/
theorem pySortDescBy_perm (key : α → Nat) (l : List α) :
    (pySortDescBy key l).Perm l :=
  List.perm_insertionSort _ l

/-- Reading every position of a list in order reproduces the list. -/
theorem map_getD_range (l : List α) (d : α) :
    (List.range l.length).map (fun i => l.getD i d) = l := by
  induction l with
  | nil => simp
  | cons a t ih =>
    rw [List.length_cons, List.range_succ_eq_map]
    simp only [List.map_cons, List.map_map]
    have hcomp : ((fun i => (a :: t).getD i d) ∘ Nat.succ) = fun i => t.getD i d := by
      funext i
      simp [List.getD_cons_succ]
    rw [hcomp, ih]
    simp [List.getD_cons_zero]

/-- `batch_idx` is a permutation of `range n` (line 413 sorts exactly the
list `range(len(batch))`). -/
theorem batchIdxOf_perm (batch : List BatchItem) :
    (batchIdxOf batch).Perm (List.range batch.length) :=
  pySortDescBy_perm _ _

/-- The sort of line 413 (on indices) and the sort of line 332 (on the batch
itself) agree: reading the batch at the positions `batch_idx` yields exactly
the sorted batch that `_collate_fn` builds its rows from. -/
theorem sorted_eq_batchIdx_map (batch : List BatchItem) :
    pySortDescBy itemLen batch =
      (batchIdxOf batch).map (fun i => batch.getD i ([], none)) := by
  have h := List.map_insertionSort
    (fun i j => (batch.getD j ([], none)).1.length ≤ (batch.getD i ([], none)).1.length)
    (fun u v => itemLen v ≤ itemLen u)
    (fun i => batch.getD i ([], none)) (List.range batch.length)
    (fun a _ b _ => Iff.rfl)
  unfold batchIdxOf pySortDescBy
  rw [h, map_getD_range]

/-! ### Properties of numpy fancy assignment -/

theorem setFold_length (idx : List Nat) (vals : List α) (arr : List α) :
    (setFold arr idx vals).length = arr.length := by
  induction idx generalizing vals arr with
  | nil => simp only [setFold]
  | cons j js ih =>
    cases vals with
    | nil => simp only [setFold]
    | cons v vs =>
      simp only [setFold]
      rw [ih, List.length_set]

theorem getElem?_setFold_of_not_mem {i : Nat} (idx : List Nat) (vals arr : List α)
    (h : i ∉ idx) : (setFold arr idx vals)[i]? = arr[i]? := by
  induction idx generalizing vals arr with
  | nil => simp only [setFold]
  | cons j js ih =>
    cases vals with
    | nil => simp only [setFold]
    | cons v vs =>
      simp only [setFold]
      rw [ih vs (arr.set j v) (fun hm => h (List.mem_cons_of_mem j hm))]
      refine List.getElem?_set_ne ?_
      intro hji
      subst hji
      exact h (List.mem_cons_self j js)

theorem getElem?_setFold_nodup (idx : List Nat) (vals arr : List α)
    (hnd : idx.Nodup) {k i : Nat} {v : α}
    (hik : idx[k]? = some i) (hvk : vals[k]? = some v) (hia : i < arr.length) :
    (setFold arr idx vals)[i]? = some v := by
  induction idx generalizing vals arr k with
  | nil => simp at hik
  | cons j js ih =>
    rcases List.nodup_cons.mp hnd with ⟨hj, hjs⟩
    cases vals with
    | nil => simp at hvk
    | cons v0 vs =>
      cases k with
      | zero =>
        simp only [List.getElem?_cons_zero, Option.some.injEq] at hik hvk
        subst hik; subst hvk
        simp only [setFold]
        rw [getElem?_setFold_of_not_mem js vs _ hj]
        exact List.getElem?_set_self hia
      | succ k =>
        simp only [List.getElem?_cons_succ] at hik hvk
        simp only [setFold]
        exact ih vs (arr.set j v0) hjs hik hvk (by rwa [List.length_set])

/-- Round-trip of the order restoration: if `idx` is a permutation of
`range n` and position `j` of the output array holds the value computed from
original index `idx[j]`, then the fancy assignment
`arr[idx] = arr` (line 252) restores the values to original order. -/
theorem npIndexAssign_roundtrip (g : Nat → β) (idx : List Nat) (n : Nat)
    (hperm : idx.Perm (List.range n)) :
    npIndexAssign (idx.map g) idx (idx.map g) = some ((List.range n).map g) := by
  have hlen : idx.length = n := by
    have := hperm.length_eq; rwa [List.length_range] at this
  have hmem : ∀ i ∈ idx, i < n := by
    intro i hi
    have : i ∈ List.range n := hperm.subset hi
    exact List.mem_range.mp this
  have hnd : idx.Nodup := hperm.nodup_iff.mpr (List.nodup_range n)
  rw [npIndexAssign, if_pos ⟨(List.length_map _ _).symm,
      fun i hi => by rw [List.length_map, hlen]; exact hmem i hi⟩]
  congr 1
  apply List.ext_getElem?
  intro i
  by_cases hin : i < n
  · have hi_mem : i ∈ idx := hperm.mem_iff.mpr (List.mem_range.mpr hin)
    rcases List.mem_iff_getElem?.mp hi_mem with ⟨k, hk⟩
    have hvk : (idx.map g)[k]? = some (g i) := by
      rw [List.getElem?_map, hk]; rfl
    rw [getElem?_setFold_nodup idx (idx.map g) (idx.map g) hnd hk hvk
        (by rw [List.length_map, hlen]; exact hin)]
    rw [List.getElem?_map, List.getElem?_range hin]; rfl
  · have h1 : (setFold (idx.map g) idx (idx.map g)).length ≤ i := by
      rw [setFold_length, List.length_map, hlen]; omega
    have h2 : ((List.range n).map g).length ≤ i := by
      rw [List.length_map, List.length_range]; omega
    rw [List.getElem?_eq_none h1, List.getElem?_eq_none h2]

/-- Fancy self-assignment by a permutation of the positions succeeds, keeps
the length, and only rearranges the entries. -/
theorem npIndexAssign_self_mem (vals : List β) (idx : List Nat) (n : Nat)
    (hperm : idx.Perm (List.range n)) (hlen : vals.length = n) :
    ∃ res, npIndexAssign vals idx vals = some res ∧ res.length = n ∧
      ∀ z ∈ res, z ∈ vals := by
  have hilen : idx.length = n := by
    have := hperm.length_eq; rwa [List.length_range] at this
  have hmem : ∀ i ∈ idx, i < n := fun i hi =>
    List.mem_range.mp (hperm.subset hi)
  have hnd : idx.Nodup := hperm.nodup_iff.mpr (List.nodup_range n)
  rw [npIndexAssign, if_pos ⟨hilen.trans hlen.symm,
      fun i hi => by rw [hlen]; exact hmem i hi⟩]
  refine ⟨_, rfl, by rw [setFold_length, hlen], ?_⟩
  intro z hz
  rcases List.mem_iff_getElem?.mp hz with ⟨i, hi⟩
  have hige : i < n := by
    by_contra hge
    rw [List.getElem?_eq_none (by rw [setFold_length, hlen]; omega)] at hi
    exact Option.noConfusion hi
  have hi_mem : i ∈ idx := hperm.mem_iff.mpr (List.mem_range.mpr hige)
  rcases List.mem_iff_getElem?.mp hi_mem with ⟨k, hk⟩
  have hklen : k < vals.length := by
    rw [hlen, ← hilen]
    exact (List.getElem?_eq_some_iff.mp hk).1
  have hvk : vals[k]? = some vals[k] := List.getElem?_eq_getElem hklen
  rw [getElem?_setFold_nodup idx vals vals hnd hk hvk (by rw [hlen]; exact hige)] at hi
  cases hi
  exact List.getElem_mem hklen

/-! ### Access lemmas for the built batch -/

theorem transform_fst (D : TaskDict) (spp : SentencePieceProc) (ct : CollateTokens)
    (x : List Sample) (y : Option (List String)) :
    (transform_model_input D spp ct x y).1 = collate_fn D ct (buildBatch D spp x y) := rfl

theorem transform_snd (D : TaskDict) (spp : SentencePieceProc) (ct : CollateTokens)
    (x : List Sample) (y : Option (List String)) :
    (transform_model_input D spp ct x y).2 = batchIdxOf (buildBatch D spp x y) := rfl

theorem buildBatch_length (D : TaskDict) (spp : SentencePieceProc)
    (x : List Sample) (y : Option (List String)) :
    (buildBatch D spp x y).length = x.length := by
  simp [buildBatch]

theorem scaleSample_length (s : Sample) : (scaleSample s).length = s.length := by
  simp [scaleSample]

theorem buildBatch_getD (D : TaskDict) (spp : SentencePieceProc)
    (x : List Sample) (y : Option (List String)) {i : Nat} (hi : i < x.length) :
    (buildBatch D spp x y).getD i ([], none) =
      (scaleSample (x.getD i []), y.map fun ys => encodeTarget D spp (ys.getD i "")) := by
  rw [List.getD_eq_getElem _ _ (by rw [buildBatch_length]; exact hi)]
  simp [buildBatch]

theorem itemLen_buildBatch (D : TaskDict) (spp : SentencePieceProc)
    (x : List Sample) (y : Option (List String)) {i : Nat} (hi : i < x.length) :
    itemLen ((buildBatch D spp x y).getD i ([], none)) = (x.getD i []).length := by
  rw [buildBatch_getD D spp x y hi]
  simp [itemLen, scaleSample]

theorem sorted_ne_nil {batch : List BatchItem} (hne : batch ≠ []) :
    ∃ b0 rest, pySortDescBy itemLen batch = b0 :: rest := by
  cases h : pySortDescBy itemLen batch with
  | nil =>
    exfalso
    have hl := (pySortDescBy_perm itemLen batch).length_eq
    rw [h] at hl
    exact hne (List.length_eq_zero.mp hl.symm)
  | cons b0 rest => exact ⟨b0, rest, rfl⟩

/-! ### Claim C2 -/

/-- Claim C2: for every input batch, `_transform_model_input` returns
`batch_idx` that (1) is a permutation of `0..n-1`; (2) is the stable
descending sort of the original indices by sequence length: any later index
has a strictly shorter sample, or an equally long sample and a larger
original position, so equal lengths keep their original relative order;
(3) agrees with the internal sort of `_collate_fn`: reading the batch at the
`batch_idx` positions is exactly the sorted batch whose row `j` therefore
holds the sample of original index `batch_idx[j]`; and (4) round-trips:
assigning row-`j` outputs to positions `batch_idx[j]` (numpy fancy
assignment, line 252) reconstructs the outputs in original input order. -/
theorem claim_C2_batchIdx_stable_sort_roundtrip (D : TaskDict)
    (spp : SentencePieceProc) (ct : CollateTokens) (x : List Sample)
    (y : Option (List String)) (g : BatchItem → String) :
    ((transform_model_input D spp ct x y).2).Perm (List.range x.length) ∧
    ((transform_model_input D spp ct x y).2).Pairwise
      (fun i j => (x.getD j []).length < (x.getD i []).length ∨
        ((x.getD i []).length = (x.getD j []).length ∧ i < j)) ∧
    pySortDescBy itemLen (buildBatch D spp x y) =
      ((transform_model_input D spp ct x y).2).map
        (fun i => (buildBatch D spp x y).getD i ([], none)) ∧
    npIndexAssign
      (((transform_model_input D spp ct x y).2).map
        (fun i => g ((buildBatch D spp x y).getD i ([], none))))
      ((transform_model_input D spp ct x y).2)
      (((transform_model_input D spp ct x y).2).map
        (fun i => g ((buildBatch D spp x y).getD i ([], none)))) =
      some ((buildBatch D spp x y).map g) := by
  rw [transform_snd]
  have hblen : (buildBatch D spp x y).length = x.length := buildBatch_length D spp x y
  have hperm : (batchIdxOf (buildBatch D spp x y)).Perm (List.range x.length) := by
    have := batchIdxOf_perm (buildBatch D spp x y)
    rwa [hblen] at this
  refine ⟨hperm, ?_, ?_, ?_⟩
  · have hpw := pairwise_pySortDescBy
      (fun i => ((buildBatch D spp x y).getD i ([], none)).1.length) (· < ·)
      (List.range (buildBatch D spp x y).length)
      (List.pairwise_lt_range _)
    refine List.Pairwise.imp_of_mem ?_ hpw
    intro i j hi hj hrel
    have hi' : i < x.length := by
      have := hperm.subset hi
      exact List.mem_range.mp this
    have hj' : j < x.length := by
      have := hperm.subset hj
      exact List.mem_range.mp this
    have hki : ((buildBatch D spp x y).getD i ([], none)).1.length = (x.getD i []).length :=
      itemLen_buildBatch D spp x y hi'
    have hkj : ((buildBatch D spp x y).getD j ([], none)).1.length = (x.getD j []).length :=
      itemLen_buildBatch D spp x y hj'
    simpa only [hki, hkj] using hrel
  · exact sorted_eq_batchIdx_map (buildBatch D spp x y)
  · have h := npIndexAssign_roundtrip
      (fun i => g ((buildBatch D spp x y).getD i ([], none)))
      (batchIdxOf (buildBatch D spp x y)) x.length hperm
    rw [h]
    congr 1
    have hc : (fun i => g ((buildBatch D spp x y).getD i ([], none))) =
        g ∘ (fun i => (buildBatch D spp x y).getD i ([], none)) := rfl
    rw [hc, ← hblen, ← List.map_map g (fun i => (buildBatch D spp x y).getD i ([], none)),
      map_getD_range]

/-! ### Structure of the collated dictionary -/

theorem pairwise_trivial (l : List α) : l.Pairwise (fun _ _ => True) := by
  induction l with
  | nil => exact List.Pairwise.nil
  | cons a t ih => exact List.Pairwise.cons (fun _ _ => trivial) ih

theorem batchIdxOf_length (batch : List BatchItem) :
    (batchIdxOf batch).length = batch.length := by
  rw [(batchIdxOf_perm batch).length_eq, List.length_range]

theorem batchIdxOf_getD_lt (batch : List BatchItem) {j : Nat} (hj : j < batch.length) :
    (batchIdxOf batch).getD j 0 < batch.length := by
  have hlen : (batchIdxOf batch).length = batch.length := batchIdxOf_length batch
  have hj2 : j < (batchIdxOf batch).length := by rw [hlen]; exact hj
  have hmem : (batchIdxOf batch).getD j 0 ∈ batchIdxOf batch := by
    rw [List.getD_eq_getElem _ _ hj2]
    exact List.getElem_mem hj2
  exact List.mem_range.mp ((batchIdxOf_perm batch).subset hmem)

/-- Row `j` of any per-item map over the sorted batch is the function applied
to the batch item of original index `batch_idx[j]`. -/
theorem getD_sorted_map {β : Type} (batch : List BatchItem) (f : BatchItem → β)
    (d : β) {j : Nat} (hj : j < batch.length) :
    ((pySortDescBy itemLen batch).map f).getD j d =
      f (batch.getD ((batchIdxOf batch).getD j 0) ([], none)) := by
  have hlen : (batchIdxOf batch).length = batch.length := batchIdxOf_length batch
  have hj2 : j < (batchIdxOf batch).length := by rw [hlen]; exact hj
  rw [sorted_eq_batchIdx_map, List.map_map]
  have hj3 : j < ((batchIdxOf batch).map
      (f ∘ fun i => batch.getD i ([], none))).length := by
    rw [List.length_map, hlen]; exact hj
  rw [List.getD_eq_getElem _ _ hj3, List.getElem_map,
    List.getD_eq_getElem (batchIdxOf batch) 0 hj2]
  rfl

/-- The head of the sorted batch has maximal sequence length. -/
theorem sorted_head_max (batch : List BatchItem) :
    ∀ s ∈ batch, itemLen s ≤ itemLen ((pySortDescBy itemLen batch).headD ([], none)) := by
  intro s hsmem
  have hpw := pairwise_pySortDescBy itemLen (fun _ _ => True) batch (pairwise_trivial batch)
  have hmem : s ∈ pySortDescBy itemLen batch := (pySortDescBy_perm itemLen batch).mem_iff.mpr hsmem
  cases hs : pySortDescBy itemLen batch with
  | nil => rw [hs] at hmem; exact absurd hmem (List.not_mem_nil s)
  | cons b0 rest =>
    rw [hs] at hmem hpw
    rw [List.headD_cons]
    rcases List.mem_cons.mp hmem with rfl | hrest
    · exact le_refl _
    · rcases (List.rel_of_pairwise_cons hpw) hrest with h1 | h1
      · exact le_of_lt h1
      · exact le_of_eq h1.1.symm

/-- The head of the sorted batch is a member of the batch. -/
theorem sorted_head_mem (batch : List BatchItem) (hne : batch ≠ []) :
    (pySortDescBy itemLen batch).headD ([], none) ∈ batch := by
  obtain ⟨b0, rest, hs⟩ := sorted_ne_nil hne
  rw [hs, List.headD_cons]
  exact (pySortDescBy_perm itemLen batch).subset (hs ▸ List.mem_cons_self b0 rest)

/-- Unfolding of `_collate_fn` in the no-target branch, given the shape of
the sorted batch. -/
theorem collate_fn_eq_none_case (D : TaskDict) (ct : CollateTokens)
    (batch : List BatchItem) (b0 : BatchItem) (rest : List BatchItem)
    (hs : pySortDescBy itemLen batch = b0 :: rest) (hb : b0.2 = none) :
    collate_fn D ct batch = some
      { ntokens := none
        net_input :=
          { src_tokens := (b0 :: rest).map (fun s => padFrames s.1 b0.1.length)
            src_lengths := (b0 :: rest).map (fun s => s.1.length)
            prev_output_tokens := none }
        target := none } := by
  simp only [collate_fn, hs, hb]

/-- Unfolding of `_collate_fn` in the with-target branch, given the shape of
the sorted batch. -/
theorem collate_fn_eq_some_case (D : TaskDict) (ct : CollateTokens)
    (batch : List BatchItem) (b0 : BatchItem) (rest : List BatchItem)
    (hs : pySortDescBy itemLen batch = b0 :: rest) (t : List Nat)
    (hb : b0.2 = some t) :
    collate_fn D ct batch = some
      { ntokens := some ((((b0 :: rest).map (fun s => s.2.getD [])).map
          (fun tl => tl.countP (fun tok => tok != D.padIdx))).sum)
        net_input :=
          { src_tokens := (b0 :: rest).map (fun s => padFrames s.1 b0.1.length)
            src_lengths := (b0 :: rest).map (fun s => s.1.length)
            prev_output_tokens := some (ct ((b0 :: rest).map (fun s => s.2.getD []))
              D.padIdx D.eosIdx false true) }
        target := some (ct ((b0 :: rest).map (fun s => s.2.getD []))
          D.padIdx D.eosIdx false false) } := by
  simp only [collate_fn, hs, hb]

/-- Collation always produces, for a non-empty batch, a dictionary whose
`src_tokens` rows are the zero-padded sorted samples and whose `src_lengths`
are the sorted original lengths; the pad width is the length of the head
(longest) sorted sample. -/
theorem collate_src_fields (D : TaskDict) (ct : CollateTokens)
    (batch : List BatchItem) (hne : batch ≠ []) :
    ∃ bd, collate_fn D ct batch = some bd ∧
      bd.net_input.src_tokens = (pySortDescBy itemLen batch).map
        (fun s => padFrames s.1 (itemLen ((pySortDescBy itemLen batch).headD ([], none)))) ∧
      bd.net_input.src_lengths = (pySortDescBy itemLen batch).map (fun s => s.1.length) := by
  obtain ⟨b0, rest, hs⟩ := sorted_ne_nil hne
  cases hb : b0.2 with
  | some t =>
    rw [collate_fn_eq_some_case D ct batch b0 rest hs t hb]
    exact ⟨_, rfl, by rw [hs, List.headD_cons]; simp only [itemLen], by rw [hs]⟩
  | none =>
    rw [collate_fn_eq_none_case D ct batch b0 rest hs hb]
    exact ⟨_, rfl, by rw [hs, List.headD_cons]; simp only [itemLen], by rw [hs]⟩

/-- With no targets in the batch, the collated dictionary has `target`,
`prev_output_tokens` and `ntokens` all `None` (lines 369-372). -/
theorem collate_none_fields (D : TaskDict) (ct : CollateTokens)
    (batch : List BatchItem) (hne : batch ≠ [])
    (hnone : ∀ b ∈ batch, b.2 = none) :
    ∃ bd, collate_fn D ct batch = some bd ∧ bd.ntokens = none ∧
      bd.target = none ∧ bd.net_input.prev_output_tokens = none := by
  obtain ⟨b0, rest, hs⟩ := sorted_ne_nil hne
  have hb0 : b0.2 = none :=
    hnone b0 ((pySortDescBy_perm itemLen batch).subset (hs ▸ List.mem_cons_self b0 rest))
  rw [collate_fn_eq_none_case D ct batch b0 rest hs hb0]
  exact ⟨_, rfl, rfl, rfl, rfl⟩

/-- With targets present, `ntokens` is the total count of non-pad tokens over
all encoded targets; sorting does not change the total. -/
theorem collate_some_ntokens (D : TaskDict) (ct : CollateTokens)
    (batch : List BatchItem) (hne : batch ≠ [])
    (hsome : ∀ b ∈ batch, b.2.isSome) :
    ∃ bd, collate_fn D ct batch = some bd ∧
      bd.ntokens = some ((batch.map
        (fun s => (s.2.getD []).countP (fun tok => tok != D.padIdx))).sum) := by
  obtain ⟨b0, rest, hs⟩ := sorted_ne_nil hne
  have hb0mem : b0 ∈ batch :=
    (pySortDescBy_perm itemLen batch).subset (hs ▸ List.mem_cons_self b0 rest)
  have hsum : ((b0 :: rest).map
      (fun s => (s.2.getD []).countP (fun tok => tok != D.padIdx))).sum =
      ((batch.map (fun s => (s.2.getD []).countP (fun tok => tok != D.padIdx))).sum) := by
    refine List.Perm.sum_eq (List.Perm.map _ ?_)
    exact hs ▸ pySortDescBy_perm itemLen batch
  cases hb : b0.2 with
  | some t =>
    rw [collate_fn_eq_some_case D ct batch b0 rest hs t hb]
    refine ⟨_, rfl, ?_⟩
    simp only [List.map_map]
    rw [show ((fun tl => List.countP (fun tok => tok != D.padIdx) tl) ∘ fun s =>
      s.2.getD [] : BatchItem → Nat) =
      (fun s => (s.2.getD []).countP (fun tok => tok != D.padIdx)) from rfl]
    rw [hsum]
  | none =>
    exfalso
    have := hsome b0 hb0mem
    rw [hb] at this
    simp at this

/-! ### Padding lemmas and claim C3 -/

theorem getD_mem {l : List α} {i : Nat} (d : α) (hi : i < l.length) :
    l.getD i d ∈ l := by
  rw [List.getD_eq_getElem _ _ hi]
  exact List.getElem_mem hi

theorem padFrames_length (s : Sample) (m : Nat) (h : s.length ≤ m) :
    (padFrames s m).length = m := by
  simp only [padFrames, List.length_map, List.length_append, List.length_replicate]
  omega

theorem padFrames_take (s : Sample) (m : Nat) :
    (padFrames s m).take s.length = s.map (fun v => [v]) := by
  rw [padFrames, ← List.map_take, List.take_left]

theorem padFrames_drop (s : Sample) (m : Nat) :
    (padFrames s m).drop s.length = List.replicate (m - s.length) [0] := by
  rw [padFrames, ← List.map_drop, List.drop_left, List.map_replicate]

theorem buildBatch_ne_nil (D : TaskDict) (spp : SentencePieceProc)
    {x : List Sample} (y : Option (List String)) (hne : x ≠ []) :
    buildBatch D spp x y ≠ [] := by
  intro h
  have := buildBatch_length D spp x y
  rw [h] at this
  exact hne (List.length_eq_zero.mp this.symm)

theorem buildBatch_snd_none (D : TaskDict) (spp : SentencePieceProc)
    (x : List Sample) : ∀ b ∈ buildBatch D spp x none, b.2 = none := by
  intro b hb
  rcases List.mem_map.mp hb with ⟨i, _, hfb⟩
  rw [← hfb]
  rfl

theorem buildBatch_snd_isSome (D : TaskDict) (spp : SentencePieceProc)
    (x : List Sample) (ys : List String) :
    ∀ b ∈ buildBatch D spp x (some ys), b.2.isSome := by
  intro b hb
  rcases List.mem_map.mp hb with ⟨i, _, hfb⟩
  rw [← hfb]
  rfl

/-- Claim C3: for a non-empty batch of `n` variable-length sequences, the
dictionary returned by `_transform_model_input` holds `src_tokens` of shape
`(n, max_seqlength, 1)` where `max_seqlength` is the length of the longest
sequence; row `j` holds the `j`-th longest scaled sequence (the sample of
original index `batch_idx[j]`) in its first `src_lengths[j]` frames and zeros
in all remaining frames, and `src_lengths[j]` is that sequence's original
unpadded length. -/
theorem claim_C3_src_tokens_shape (D : TaskDict) (spp : SentencePieceProc)
    (ct : CollateTokens) (x : List Sample) (hne : x ≠ []) :
    ∃ bd M,
      (transform_model_input D spp ct x none).1 = some bd ∧
      bd.net_input.src_tokens.length = x.length ∧
      bd.net_input.src_lengths.length = x.length ∧
      (∀ row ∈ bd.net_input.src_tokens, row.length = M) ∧
      (∀ row ∈ bd.net_input.src_tokens, ∀ cell ∈ row, cell.length = 1) ∧
      (∀ s ∈ x, s.length ≤ M) ∧ (∃ s ∈ x, s.length = M) ∧
      (∀ j, j < x.length →
        bd.net_input.src_lengths.getD j 0 =
          (x.getD ((transform_model_input D spp ct x none).2.getD j 0) []).length ∧
        (bd.net_input.src_tokens.getD j []).take (bd.net_input.src_lengths.getD j 0) =
          (scaleSample (x.getD ((transform_model_input D spp ct x none).2.getD j 0) [])).map
            (fun v => [v]) ∧
        (bd.net_input.src_tokens.getD j []).drop (bd.net_input.src_lengths.getD j 0) =
          List.replicate (M - bd.net_input.src_lengths.getD j 0) [0]) := by
  have hbne : buildBatch D spp x none ≠ [] := buildBatch_ne_nil D spp none hne
  have hblen : (buildBatch D spp x none).length = x.length := buildBatch_length D spp x none
  obtain ⟨bd, hcol, hsrc, hlens⟩ := collate_src_fields D ct (buildBatch D spp x none) hbne
  have hslen : (pySortDescBy itemLen (buildBatch D spp x none)).length = x.length := by
    rw [(pySortDescBy_perm itemLen _).length_eq, hblen]
  have hmemx : ∀ s ∈ buildBatch D spp x none, itemLen s ≤
      itemLen ((pySortDescBy itemLen (buildBatch D spp x none)).headD ([], none)) :=
    sorted_head_max (buildBatch D spp x none)
  refine ⟨bd, itemLen ((pySortDescBy itemLen (buildBatch D spp x none)).headD ([], none)),
    ?_, ?_, ?_, ?_, ?_, ?_, ?_, ?_⟩
  · rw [transform_fst]
    exact hcol
  · rw [hsrc, List.length_map, hslen]
  · rw [hlens, List.length_map, hslen]
  · rw [hsrc]
    intro row hrow
    rcases List.mem_map.mp hrow with ⟨s, hsmem, hrow_eq⟩
    rw [← hrow_eq]
    exact padFrames_length s.1 _ (hmemx s ((pySortDescBy_perm itemLen _).subset hsmem))
  · rw [hsrc]
    intro row hrow cell hcell
    rcases List.mem_map.mp hrow with ⟨s, _, hrow_eq⟩
    rw [← hrow_eq] at hcell
    rcases List.mem_map.mp hcell with ⟨v, _, hcell_eq⟩
    rw [← hcell_eq]
    rfl
  · intro s hsx
    rcases List.mem_iff_getElem?.mp hsx with ⟨i, hi⟩
    have hilt : i < x.length := (List.getElem?_eq_some_iff.mp hi).1
    have hilen : itemLen ((buildBatch D spp x none).getD i ([], none)) =
        (x.getD i []).length := itemLen_buildBatch D spp x none hilt
    have hmem : (buildBatch D spp x none).getD i ([], none) ∈ buildBatch D spp x none :=
      getD_mem _ (by rw [hblen]; exact hilt)
    have hle := hmemx _ hmem
    rw [hilen] at hle
    have hxs : x.getD i [] = s := by
      rw [List.getD_eq_getElem?_getD, hi]
      rfl
    rwa [hxs] at hle
  · have hhead := sorted_head_mem (buildBatch D spp x none) hbne
    rcases List.mem_iff_getElem?.mp hhead with ⟨i, hi⟩
    have hilt : i < x.length := by
      have := (List.getElem?_eq_some_iff.mp hi).1
      rwa [hblen] at this
    refine ⟨x.getD i [], getD_mem _ hilt, ?_⟩
    have hilen : itemLen ((buildBatch D spp x none).getD i ([], none)) =
        (x.getD i []).length := itemLen_buildBatch D spp x none hilt
    have hgd : (buildBatch D spp x none).getD i ([], none) =
        (pySortDescBy itemLen (buildBatch D spp x none)).headD ([], none) := by
      rw [List.getD_eq_getElem?_getD, hi]
      rfl
    rw [← hilen, hgd]
  · intro j hj
    have hjb : j < (buildBatch D spp x none).length := by rw [hblen]; exact hj
    have hidx_lt : (batchIdxOf (buildBatch D spp x none)).getD j 0 < x.length := by
      have := batchIdxOf_getD_lt (buildBatch D spp x none) hjb
      rwa [hblen] at this
    have hitem := buildBatch_getD D spp x none hidx_lt
    have hL : bd.net_input.src_lengths.getD j 0 =
        (x.getD ((batchIdxOf (buildBatch D spp x none)).getD j 0) []).length := by
      rw [hlens, getD_sorted_map _ (fun s => s.1.length) 0 hjb, hitem]
      exact scaleSample_length _
    have hrow : bd.net_input.src_tokens.getD j [] =
        padFrames (scaleSample (x.getD ((batchIdxOf (buildBatch D spp x none)).getD j 0) []))
          (itemLen ((pySortDescBy itemLen (buildBatch D spp x none)).headD ([], none))) := by
      rw [hsrc, getD_sorted_map _ _ [] hjb, hitem]
    rw [transform_snd]
    refine ⟨hL, ?_, ?_⟩
    · rw [hrow, hL, ← scaleSample_length (x.getD _ [])]
      exact padFrames_take _ _
    · rw [hrow, hL, ← scaleSample_length (x.getD _ [])]
      exact padFrames_drop _ _

/-! ### Claim C4: target tokenization, ntokens, and the no-target case -/

/-- Claim C4: when targets `y` are provided, every batch item carries the
target string tokenized by the SentencePiece processor (`EncodeAsPieces`,
pieces joined by spaces) and encoded against the task dictionary, and the
collated `ntokens` equals the total number of non-pad tokens over all
encoded targets (in original order; sorting does not change the total); when
`y` is `None` the collated batch has `target`, `prev_output_tokens` and
`ntokens` all `None`. -/
theorem claim_C4_targets_and_ntokens (D : TaskDict) (spp : SentencePieceProc)
    (ct : CollateTokens) (x : List Sample) (hne : x ≠ []) :
    (∀ ys : List String, ∀ i, i < x.length →
      ((buildBatch D spp x (some ys)).getD i ([], none)).2 =
        some (D.encode_line (String.intercalate " " (spp.EncodeAsPieces (ys.getD i ""))))) ∧
    (∀ ys : List String, ∃ bd,
      (transform_model_input D spp ct x (some ys)).1 = some bd ∧
      bd.ntokens = some (((List.range x.length).map fun i =>
        (encodeTarget D spp (ys.getD i "")).countP (fun tok => tok != D.padIdx)).sum)) ∧
    (∃ bd, (transform_model_input D spp ct x none).1 = some bd ∧
      bd.ntokens = none ∧ bd.target = none ∧
      bd.net_input.prev_output_tokens = none) := by
  refine ⟨?_, ?_, ?_⟩
  · intro ys i hi
    rw [buildBatch_getD D spp x (some ys) hi]
    rfl
  · intro ys
    obtain ⟨bd, hcol, hnt⟩ := collate_some_ntokens D ct (buildBatch D spp x (some ys))
      (buildBatch_ne_nil D spp (some ys) hne) (buildBatch_snd_isSome D spp x ys)
    refine ⟨bd, by rw [transform_fst]; exact hcol, ?_⟩
    rw [hnt]
    congr 1
    simp only [buildBatch, List.map_map]
    rfl
  · obtain ⟨bd, hcol, h1, h2, h3⟩ := collate_none_fields D ct (buildBatch D spp x none)
      (buildBatch_ne_nil D spp none hne) (buildBatch_snd_none D spp x)
    exact ⟨bd, by rw [transform_fst]; exact hcol, h1, h2, h3⟩

/-! ### Claim C10: exact rescaling by INT16MAX -/

theorem padFrames_getD (s : Sample) (m t : Nat) (ht : t < s.length) :
    (padFrames s m).getD t [] = [s.getD t 0] := by
  have ht2 : t < (s ++ List.replicate (m - s.length) (0 : ℚ)).length := by
    rw [List.length_append]
    omega
  have ht3 : t < ((s ++ List.replicate (m - s.length) (0 : ℚ)).map
      (fun v => [v])).length := by
    rw [List.length_map]
    exact ht2
  rw [padFrames, List.getD_eq_getElem _ _ ht3, List.getElem_map,
    List.getElem_append_left ht, List.getD_eq_getElem _ _ ht]

theorem scaleSample_getD (s : Sample) (t : Nat) (ht : t < s.length) :
    (scaleSample s).getD t 0 = s.getD t 0 * 32767 := by
  have ht2 : t < (s.map (fun v => v * (32767 : ℚ))).length := by
    rw [List.length_map]
    exact ht
  rw [scaleSample, List.getD_eq_getElem _ _ ht2, List.getElem_map,
    List.getD_eq_getElem _ _ ht]

theorem collate_fn_nil_eq_none (D : TaskDict) (ct : CollateTokens) :
    collate_fn D ct [] = none := rfl

/-- Claim C10: every sample passed through `_transform_model_input` is
multiplied elementwise by `32767` (`INT16MAX`) before collation, so each
valid frame of the model-space batch equals the corresponding user-space
waveform value scaled by exactly `32767`. -/
theorem claim_C10_int16max_scaling (D : TaskDict) (spp : SentencePieceProc)
    (ct : CollateTokens) (x : List Sample) (y : Option (List String)) :
    (∀ i, i < x.length →
      ((buildBatch D spp x y).getD i ([], none)).1 =
        (x.getD i []).map (fun v => v * INT16MAX)) ∧
    (∀ bd, (transform_model_input D spp ct x y).1 = some bd →
      ∀ j, j < x.length → ∀ t, t < bd.net_input.src_lengths.getD j 0 →
        (bd.net_input.src_tokens.getD j []).getD t [] =
          [(x.getD ((transform_model_input D spp ct x y).2.getD j 0) []).getD t 0
            * INT16MAX]) := by
  constructor
  · intro i hi
    rw [buildBatch_getD D spp x y hi]
    rfl
  · intro bd hbd j hj t ht
    have hne : x ≠ [] := by
      intro hx
      subst hx
      rw [transform_fst] at hbd
      have hb0 : buildBatch D spp [] y = [] := by simp [buildBatch]
      rw [hb0, collate_fn_nil_eq_none] at hbd
      exact Option.noConfusion hbd
    have hbne : buildBatch D spp x y ≠ [] := buildBatch_ne_nil D spp y hne
    have hblen : (buildBatch D spp x y).length = x.length := buildBatch_length D spp x y
    obtain ⟨bd2, hcol, hsrc, hlens⟩ := collate_src_fields D ct (buildBatch D spp x y) hbne
    rw [transform_fst, hcol] at hbd
    cases hbd
    have hjb : j < (buildBatch D spp x y).length := by rw [hblen]; exact hj
    have hidx_lt : (batchIdxOf (buildBatch D spp x y)).getD j 0 < x.length := by
      have := batchIdxOf_getD_lt (buildBatch D spp x y) hjb
      rwa [hblen] at this
    have hitem := buildBatch_getD D spp x y hidx_lt
    have hL : bd.net_input.src_lengths.getD j 0 =
        (x.getD ((batchIdxOf (buildBatch D spp x y)).getD j 0) []).length := by
      rw [hlens, getD_sorted_map _ (fun s => s.1.length) 0 hjb, hitem]
      exact scaleSample_length _
    have hrow : bd.net_input.src_tokens.getD j [] =
        padFrames (scaleSample (x.getD ((batchIdxOf (buildBatch D spp x y)).getD j 0) []))
          (itemLen ((pySortDescBy itemLen (buildBatch D spp x y)).headD ([], none))) := by
      rw [hsrc, getD_sorted_map _ _ [] hjb, hitem]
    rw [hL] at ht
    have hts : t < (scaleSample
        (x.getD ((batchIdxOf (buildBatch D spp x y)).getD j 0) [])).length := by
      rw [scaleSample_length]
      exact ht
    rw [transform_snd, hrow, padFrames_getD _ _ t hts, scaleSample_getD _ t ht]
    rfl

/-! ### Claim C5: loss gradient error path, arity, order and shape -/

/-- Torch-tensor path of `loss_gradient` (the only path where the gradients
of lines 280-281 exist): one gradient entry per sample, in original sample
order; entry `i` has exactly the length of input sample `i`, and its frame
`t` carries the chain-rule gradient `32767` times the criterion gradient at
the collated row holding sample `i`. -/
theorem loss_gradient_tensor_path_shapes (D : TaskDict) (spp : SentencePieceProc)
    (ct : CollateTokens) (dcrit : Nat → Nat → ℚ) (x : List Sample)
    (y : List String) (hne : x ≠ []) :
    ∃ res, loss_gradient D spp ct dcrit false x y = Except.ok res ∧
      res.length = x.length ∧
      (∀ i, i < x.length → (res.getD i []).length = (x.getD i []).length) ∧
      (∀ i, i < x.length → ∀ t, t < (x.getD i []).length →
        (res.getD i []).getD t 0 =
          32767 * dcrit ((transform_model_input D spp ct x (some y)).2.indexOf i) t) := by
  have hbne : buildBatch D spp x (some y) ≠ [] := buildBatch_ne_nil D spp (some y) hne
  have hblen : (buildBatch D spp x (some y)).length = x.length :=
    buildBatch_length D spp x (some y)
  obtain ⟨bd, hcol, hsrc, hlens⟩ :=
    collate_src_fields D ct (buildBatch D spp x (some y)) hbne
  have htr : transform_model_input D spp ct x (some y) =
      (some bd, batchIdxOf (buildBatch D spp x (some y))) := by
    rw [show transform_model_input D spp ct x (some y) =
      (collate_fn D ct (buildBatch D spp x (some y)),
        batchIdxOf (buildBatch D spp x (some y))) from rfl, hcol]
  have hidxlen : (batchIdxOf (buildBatch D spp x (some y))).length = x.length := by
    rw [batchIdxOf_length, hblen]
  -- the row of the sorted batch holding original sample i, and its length
  have hrowlen : ∀ i, i < x.length →
      bd.net_input.src_lengths.getD
        ((batchIdxOf (buildBatch D spp x (some y))).indexOf i) 0 =
      (x.getD i []).length := by
    intro i hi
    have hmem : i ∈ batchIdxOf (buildBatch D spp x (some y)) := by
      refine (batchIdxOf_perm (buildBatch D spp x (some y))).mem_iff.mpr ?_
      rw [hblen]
      exact List.mem_range.mpr hi
    have hjlt : (batchIdxOf (buildBatch D spp x (some y))).indexOf i <
        (batchIdxOf (buildBatch D spp x (some y))).length :=
      List.indexOf_lt_length.mpr hmem
    have hjb : (batchIdxOf (buildBatch D spp x (some y))).indexOf i <
        (buildBatch D spp x (some y)).length := by
      rw [hblen, ← hidxlen]
      exact hjlt
    have hbij : (batchIdxOf (buildBatch D spp x (some y))).getD
        ((batchIdxOf (buildBatch D spp x (some y))).indexOf i) 0 = i := by
      rw [List.getD_eq_getElem _ _ hjlt]
      exact List.getElem_indexOf hjlt
    rw [hlens, getD_sorted_map _ (fun s => s.1.length) 0 hjb, hbij,
      buildBatch_getD D spp x (some y) hi]
    exact scaleSample_length _
  have hlg : loss_gradient D spp ct dcrit false x y =
      Except.ok ((List.range x.length).map fun i =>
        (List.range (bd.net_input.src_lengths.getD
          ((batchIdxOf (buildBatch D spp x (some y))).indexOf i) 0)).map
          fun t => 32767 * dcrit ((batchIdxOf (buildBatch D spp x (some y))).indexOf i) t) := by
    simp only [loss_gradient, htr]
  refine ⟨_, hlg, ?_, ?_, ?_⟩
  · rw [List.length_map, List.length_range]
  · intro i hi
    have hi2 : i < (List.range x.length).length := by
      rw [List.length_range]
      exact hi
    have hmap : ∀ (f : Nat → Sample), ((List.range x.length).map f).getD i [] = f i := by
      intro f
      rw [List.getD_eq_getElem _ _ (by rw [List.length_map]; exact hi2),
        List.getElem_map, List.getElem_range]
    rw [hmap, List.length_map, List.length_range]
    exact hrowlen i hi
  · intro i hi t ht
    have hi2 : i < (List.range x.length).length := by
      rw [List.length_range]
      exact hi
    have hmap : ∀ (f : Nat → Sample), ((List.range x.length).map f).getD i [] = f i := by
      intro f
      rw [List.getD_eq_getElem _ _ (by rw [List.length_map]; exact hi2),
        List.getElem_map, List.getElem_range]
    rw [hmap, htr]
    have ht2 : t < bd.net_input.src_lengths.getD
        ((batchIdxOf (buildBatch D spp x (some y))).indexOf i) 0 := by
      rw [hrowlen i hi]
      exact ht
    have ht3 : t < (List.range (bd.net_input.src_lengths.getD
        ((batchIdxOf (buildBatch D spp x (some y))).indexOf i) 0)).length := by
      rw [List.length_range]
      exact ht2
    rw [List.getD_eq_getElem _ _ (by rw [List.length_map]; exact ht3),
      List.getElem_map, List.getElem_range]

/-- Claim C5, settled against the code.  For numpy-array samples — the
documented input type, and the form of the docstring's own example — the
source raises `AttributeError` at line 281 instead of returning gradients:
the `requires_grad` leaf tensors created at line 400 are local to
`_transform_model_input` and never stored back into `x_preprocessed`, whose
numpy arrays have no `grad` attribute.  The same call with caller-supplied
torch tensors returns one gradient entry per sample whose length is exactly
that of the sample (here lengths 1 and 2 for samples of lengths 1 and 2). -/
theorem claim_C5_loss_gradient_numpy_attribute_error :
    loss_gradient fixDict fixSpp fixCt (fun j t => (j : ℚ) + t) true
      [[1], [2, 3]] ["a", "b"] = Except.error (PyError.attributeError "grad") ∧
    ∃ res, loss_gradient fixDict fixSpp fixCt (fun j t => (j : ℚ) + t) false
        [[1], [2, 3]] ["a", "b"] = Except.ok res ∧
      res.length = 2 ∧ (res.getD 0 []).length = 1 ∧ (res.getD 1 []).length = 2 := by
  constructor
  · rfl
  · exact ⟨_, rfl, by decide, by decide, by decide⟩

/-! ### Claims C7, C8, C9: unimplemented methods and constructor validation -/

/-- Claim C7: `fit` and `get_activations` raise `NotImplementedError` on
every input and leave the estimator state untouched (each body is a single
`raise` statement). -/
theorem claim_C7_fit_get_activations_raise (st : EstimatorState) (x : List Sample)
    (y : List String) (batch_size nb_epochs : Nat) (x2 : List Sample)
    (layer : Nat ⊕ String) (bs2 : Nat) (framework : Bool) :
    fit st x y batch_size nb_epochs = (st, Except.error PyError.notImplementedError) ∧
    get_activations st x2 layer bs2 framework =
      (st, Except.error PyError.notImplementedError) :=
  ⟨rfl, rfl⟩

/-- Claim C8: the constructor raises `ValueError` whenever `clip_values` is
provided and is not exactly `(-1, 1)` (lower bound entirely `-1` and upper
bound entirely `1`), and whenever `postprocessing_defences` is provided; in
both cases construction stops before any download (empty download trace). -/
theorem claim_C8_constructor_validation (fp : Option String) (model : Option String) :
    (∀ (lo hi : List ℚ) (pp : Option (List String)),
      ¬ (lo.all (fun v => v == -1) ∧ hi.all (fun v => v == 1)) →
      ∃ msg, espressoInit fp model (some (lo, hi)) pp =
        ([], Except.error (PyError.valueError msg))) ∧
    (∀ (cv : Option (List ℚ × List ℚ)) (d : List String),
      ∃ msg, espressoInit fp model cv (some d) =
        ([], Except.error (PyError.valueError msg))) := by
  constructor
  · intro lo hi pp hbad
    cases hlo : lo.all (fun v => v == -1) with
    | false =>
      exact ⟨"This estimator requires normalized input audios with clip_vales=(-1, 1).",
        by simp [espressoInit, clipValuesError, hlo]⟩
    | true =>
      cases hhi : hi.all (fun v => v == 1) with
      | false =>
        exact ⟨"This estimator requires normalized input audios with clip_vales=(-1, 1).",
          by simp [espressoInit, clipValuesError, hlo, hhi]⟩
      | true => exact absurd ⟨hlo, hhi⟩ hbad
  · intro cv d
    cases cv with
    | none =>
      exact ⟨"This estimator does not support `postprocessing_defences`.",
        by simp [espressoInit, clipValuesError]⟩
    | some p =>
      obtain ⟨lo, hi⟩ := p
      cases hlo : lo.all (fun v => v == -1) with
      | false =>
        exact ⟨"This estimator requires normalized input audios with clip_vales=(-1, 1).",
          by simp [espressoInit, clipValuesError, hlo]⟩
      | true =>
        cases hhi : hi.all (fun v => v == 1) with
        | false =>
          exact ⟨"This estimator requires normalized input audios with clip_vales=(-1, 1).",
            by simp [espressoInit, clipValuesError, hlo, hhi]⟩
        | true =>
          exact ⟨"This estimator does not support `postprocessing_defences`.",
            by simp [espressoInit, clipValuesError, hlo, hhi]⟩

/-- Witness for claim C8 at concrete inputs: `clip_values = ([0], [1])` is
rejected, and so is a provided postprocessing defence. -/
theorem claim_C8_witness :
    (∃ msg, espressoInit none none (some ([0], [1])) none =
      ([], Except.error (PyError.valueError msg))) ∧
    (∃ msg, espressoInit none none none (some ["defence"]) =
      ([], Except.error (PyError.valueError msg))) :=
  ⟨(claim_C8_constructor_validation none none).1 [0] [1] none (by decide),
   (claim_C8_constructor_validation none none).2 none ["defence"]⟩

/-- Claim C9: with `espresso_config_filepath = None` and a model name other
than `librispeech_transformer` (including `None`), and the earlier checks
passing, the constructor raises `ValueError ("Model not recognised.")` with
an empty download trace, i.e. before attempting any download or model load. -/
theorem claim_C9_model_not_recognised (model : Option String)
    (cv : Option (List ℚ × List ℚ)) (hcv : clipValuesError cv = none)
    (hmodel : model ≠ some "librispeech_transformer") :
    espressoInit none model cv none =
      ([], Except.error (PyError.valueError "Model not recognised.")) := by
  simp only [espressoInit, hcv]
  rw [if_neg hmodel]

/-- Witness for claim C9 at the concrete input `model = None`. -/
theorem claim_C9_witness :
    espressoInit none none none none =
      ([], Except.error (PyError.valueError "Model not recognised.")) :=
  claim_C9_model_not_recognised none none rfl (by simp)

/-! ### Prediction: single-batch unfolding, claims C1 and C6 -/

theorem sum_map_ones (l : List α) (f : α → Nat) (h : ∀ a ∈ l, f a = 1) :
    (l.map f).sum = l.length := by
  induction l with
  | nil => rfl
  | cons a t ih =>
    rw [List.map_cons, List.sum_cons, h a (List.mem_cons_self a t),
      ih (fun b hb => h b (List.mem_cons_of_mem a hb)), List.length_cons,
      Nat.add_comm]

/-- When the whole input fits in one internal batch, `predict` decodes the
single collated batch and applies its `batch_idx` to the accumulated output. -/
theorem predict_single_batch_eq (D : TaskDict) (spp : SentencePieceProc)
    (ct : CollateTokens) (g : Generator) (bpe_decode : String → String)
    (infer : BatchDict → List (List (List Nat))) (nbest : Nat)
    (x : List Sample) (bs : Nat) (hle : x.length ≤ bs) (hne : x ≠ [])
    (bd : BatchDict) (hcol : collate_fn D ct (buildBatch D spp x none) = some bd) :
    predict D spp ct g bpe_decode infer nbest x bs =
      npIndexAssign
        ((infer bd).flatMap fun hy => (hy.take nbest).map (decodeHypo D g bpe_decode))
        (batchIdxOf (buildBatch D spp x none))
        ((infer bd).flatMap fun hy => (hy.take nbest).map (decodeHypo D g bpe_decode)) := by
  have hpos : 0 < x.length := List.length_pos.mpr hne
  have hbs0 : bs ≠ 0 := by omega
  have hnum : (x.length + bs - 1) / bs = 1 :=
    Nat.div_eq_of_lt_le (by omega) (by omega)
  have hxb : (x.drop (0 * bs)).take (min ((0 + 1) * bs) x.length - 0 * bs) = x := by
    have hmin : min ((0 + 1) * bs) x.length = x.length := by
      rw [Nat.zero_add, Nat.one_mul]
      exact Nat.min_eq_right hle
    rw [hmin, Nat.zero_mul, Nat.sub_zero, List.drop_zero, List.take_length]
  have htr : transform_model_input D spp ct x none =
      (some bd, batchIdxOf (buildBatch D spp x none)) := by
    rw [show transform_model_input D spp ct x none =
      (collate_fn D ct (buildBatch D spp x none),
        batchIdxOf (buildBatch D spp x none)) from rfl, hcol]
  simp only [predict, if_neg hbs0, hnum]
  rw [show List.range 1 = [0] from rfl]
  simp only [List.mapM_cons, List.mapM_nil, hxb, htr]
  simp [List.getLast?_cons]

/-- Claim C6 (amended to a single internal batch): when `x` fits in one
internal batch, `predict` returns one decoded string per input sample —
exactly `len(x)` outputs when the generator keeps one best hypothesis per
sample — and every output is obtained by stripping the generator's
end-of-sentence and padding symbols from the hypothesis tokens and decoding
the remaining subword string. -/
theorem claim_C6_predict_decodes_single_batch (D : TaskDict)
    (spp : SentencePieceProc) (ct : CollateTokens) (g : Generator)
    (bpe_decode : String → String) (infer : BatchDict → List (List (List Nat)))
    (nbest : Nat) (x : List Sample) (bs : Nat)
    (hle : x.length ≤ bs) (hne : x ≠ [])
    (hinfer : ∀ bd, (infer bd).length = bd.net_input.src_tokens.length)
    (hbest : ∀ bd, ∀ hy ∈ infer bd, (hy.take nbest).length = 1) :
    ∃ out, predict D spp ct g bpe_decode infer nbest x bs = some out ∧
      out.length = x.length ∧
      ∀ s ∈ out, ∃ toks,
        s = bpe_decode (dict_string D.sym (get_symbols_to_strip_from_output g) toks) := by
  have hbne : buildBatch D spp x none ≠ [] := buildBatch_ne_nil D spp none hne
  have hblen : (buildBatch D spp x none).length = x.length := buildBatch_length D spp x none
  obtain ⟨bd, hcol, hsrc, hlens⟩ := collate_src_fields D ct (buildBatch D spp x none) hbne
  have hsrclen : bd.net_input.src_tokens.length = x.length := by
    rw [hsrc, List.length_map, (pySortDescBy_perm itemLen _).length_eq, hblen]
  have hdeclen : ((infer bd).flatMap fun hy =>
      (hy.take nbest).map (decodeHypo D g bpe_decode)).length = x.length := by
    rw [List.length_flatMap, sum_map_ones, hinfer bd, hsrclen]
    intro hy hhy
    rw [Function.comp_apply, List.length_map]
    exact hbest bd hy hhy
  have hperm : (batchIdxOf (buildBatch D spp x none)).Perm (List.range x.length) := by
    have := batchIdxOf_perm (buildBatch D spp x none)
    rwa [hblen] at this
  obtain ⟨res, hres, hreslen, hresmem⟩ := npIndexAssign_self_mem
    ((infer bd).flatMap fun hy => (hy.take nbest).map (decodeHypo D g bpe_decode))
    (batchIdxOf (buildBatch D spp x none)) x.length hperm hdeclen
  refine ⟨res, ?_, hreslen, ?_⟩
  · rw [predict_single_batch_eq D spp ct g bpe_decode infer nbest x bs hle hne bd hcol]
    exact hres
  · intro s hs
    have hmem := hresmem s hs
    rcases List.mem_flatMap.mp hmem with ⟨hy, _, hsmem⟩
    rcases List.mem_map.mp hsmem with ⟨toks, _, htoks⟩
    exact ⟨toks, htoks.symm⟩

/-- Witness for the amended claim C6 at a concrete input: two samples,
batch size 128, one hypothesis `[3, 7]` per row. -/
theorem claim_C6_predict_decodes_single_batch_witness :
    ∃ out, predict fixDict fixSpp fixCt fixGen id fixInfer 1
        [[1], [2, 3]] 128 = some out ∧
      out.length = ([[1], [2, 3]] : List Sample).length ∧
      ∀ s ∈ out, ∃ toks,
        s = id (dict_string fixDict.sym (get_symbols_to_strip_from_output fixGen) toks) :=
  claim_C6_predict_decodes_single_batch fixDict fixSpp fixCt fixGen id fixInfer 1
    [[1], [2, 3]] 128 (by decide) (by decide)
    (fun bd => by simp [fixInfer])
    (fun bd hy hhy => by
      rcases List.mem_map.mp hhy with ⟨row, _, hrow⟩
      rw [← hrow]
      rfl)

/-- Counterexample to claim C6 as stated: with four samples and
`batch_size = 3` the input is split into two internal batches; the final
fancy assignment uses only the last batch's `batch_idx` (one index against
four accumulated outputs), so `predict` raises instead of returning one
transcription per sample. -/
theorem claim_C6_counterexample_multibatch :
    predict fixDict fixSpp fixCt fixGen id fixInfer 1
      [[1], [2, 3], [4], [5, 6, 7]] 3 = none := by decide

/-- Claim C1 evaluated at a failing input: the same three-sample input
succeeds when it fits in one internal batch (`batch_size = 128`) but fails
with `batch_size = 2`, because after the loop the reindexing of line 252
applies only the `batch_idx` of the last internal batch (one index) to all
three accumulated outputs — a shape-mismatch error in numpy — instead of
restoring every transcription to its original position. -/
theorem claim_C1_predict_multibatch_crash :
    predict fixDict fixSpp fixCt fixGen id fixInfer 1 [[1], [2, 3], [4]] 2 = none ∧
    predict fixDict fixSpp fixCt fixGen id fixInfer 1 [[1], [2, 3], [4]] 128 =
      some ["3", "3", "3"] := by decide

/-! ### Witnesses at concrete inputs for the claims with hypotheses -/

/-- Witness for claim C3 at the concrete input `x = [[1], [2, 3]]`. -/
theorem claim_C3_src_tokens_shape_witness :
    ([[1], [2, 3]] : List Sample) ≠ [] ∧
    (∃ bd M,
      (transform_model_input fixDict fixSpp fixCt [[1], [2, 3]] none).1 = some bd ∧
      bd.net_input.src_tokens.length = ([[1], [2, 3]] : List Sample).length ∧
      bd.net_input.src_lengths.length = ([[1], [2, 3]] : List Sample).length ∧
      (∀ row ∈ bd.net_input.src_tokens, row.length = M) ∧
      (∀ row ∈ bd.net_input.src_tokens, ∀ cell ∈ row, cell.length = 1) ∧
      (∀ s ∈ ([[1], [2, 3]] : List Sample), s.length ≤ M) ∧
      (∃ s ∈ ([[1], [2, 3]] : List Sample), s.length = M) ∧
      (∀ j, j < ([[1], [2, 3]] : List Sample).length →
        bd.net_input.src_lengths.getD j 0 =
          (([[1], [2, 3]] : List Sample).getD
            ((transform_model_input fixDict fixSpp fixCt [[1], [2, 3]] none).2.getD j 0)
            []).length ∧
        (bd.net_input.src_tokens.getD j []).take (bd.net_input.src_lengths.getD j 0) =
          (scaleSample (([[1], [2, 3]] : List Sample).getD
            ((transform_model_input fixDict fixSpp fixCt [[1], [2, 3]] none).2.getD j 0)
            [])).map (fun v => [v]) ∧
        (bd.net_input.src_tokens.getD j []).drop (bd.net_input.src_lengths.getD j 0) =
          List.replicate (M - bd.net_input.src_lengths.getD j 0) [0])) :=
  ⟨by decide, claim_C3_src_tokens_shape fixDict fixSpp fixCt [[1], [2, 3]] (by decide)⟩

/-- Witness for claim C4 at the concrete input `x = [[1], [2, 3]]` with
targets `["a", "b"]`. -/
theorem claim_C4_targets_and_ntokens_witness :
    ([[1], [2, 3]] : List Sample) ≠ [] ∧
    ((buildBatch fixDict fixSpp [[1], [2, 3]] (some ["a", "b"])).getD 0 ([], none)).2 =
      some (fixDict.encode_line (String.intercalate " "
        (fixSpp.EncodeAsPieces (["a", "b"].getD 0 "")))) ∧
    (∃ bd,
      (transform_model_input fixDict fixSpp fixCt [[1], [2, 3]] (some ["a", "b"])).1 =
        some bd ∧
      bd.ntokens = some (((List.range ([[1], [2, 3]] : List Sample).length).map fun i =>
        (encodeTarget fixDict fixSpp (["a", "b"].getD i "")).countP
          (fun tok => tok != fixDict.padIdx)).sum)) ∧
    (∃ bd,
      (transform_model_input fixDict fixSpp fixCt [[1], [2, 3]] none).1 = some bd ∧
      bd.ntokens = none ∧ bd.target = none ∧
      bd.net_input.prev_output_tokens = none) := by
  obtain ⟨h1, h2, h3⟩ :=
    claim_C4_targets_and_ntokens fixDict fixSpp fixCt [[1], [2, 3]] (by decide)
  exact ⟨by decide, h1 ["a", "b"] 0 (by decide), h2 ["a", "b"], h3⟩

/-- Witness for claim C10 at the concrete input `x = [[1], [2, 3]]`: sample 1
is rescaled elementwise, and frame 1 of row 0 (the longer sample, original
index 1) of the collated batch is its user-space value times `INT16MAX`. -/
theorem claim_C10_int16max_scaling_witness :
    ((buildBatch fixDict fixSpp [[1], [2, 3]] none).getD 1 ([], none)).1 =
      (([[1], [2, 3]] : List Sample).getD 1 []).map (fun v => v * INT16MAX) ∧
    ∃ bd, (transform_model_input fixDict fixSpp fixCt [[1], [2, 3]] none).1 = some bd ∧
      (bd.net_input.src_tokens.getD 0 []).getD 1 [] =
        [(([[1], [2, 3]] : List Sample).getD
          ((transform_model_input fixDict fixSpp fixCt [[1], [2, 3]] none).2.getD 0 0)
          []).getD 1 0 * INT16MAX] := by
  obtain ⟨bd, hcol, hsrc, hlens⟩ := collate_src_fields fixDict fixCt
    (buildBatch fixDict fixSpp [[1], [2, 3]] none) (by decide)
  have hbd : (transform_model_input fixDict fixSpp fixCt [[1], [2, 3]] none).1 =
      some bd := by
    rw [transform_fst]
    exact hcol
  refine ⟨(claim_C10_int16max_scaling fixDict fixSpp fixCt [[1], [2, 3]] none).1 1
      (by decide), bd, hbd,
    (claim_C10_int16max_scaling fixDict fixSpp fixCt [[1], [2, 3]] none).2 bd hbd 0
      (by decide) 1 ?_⟩
  rw [hlens]
  decide

end ArtEspresso
